import Mathlib

/-
Verification of the hikari HTTP router and websocket hub against its
natural-language specification.

The Go sources are shallowly embedded: strings are Lean Strings (lists of
characters), Go byte-for-byte string operations become List Char operations,
Go maps with string keys become association lists with last-write-wins
lookup (mirroring map overwrite semantics), channels with bounded buffers
become lists with an explicit capacity, and handlers are modelled as total
functions from a request context to a request context that record their
side effects in an event trace.
-/

namespace Hikari

abbrev Chars := List Char

/-! ## Pattern utility (src/pkg/hikari/group.go)

`normalizedPattern` in the source prepends a slash when missing, replaces
every maximal run of slashes by a single slash (the regex `/+` -> `/`) and
strips one trailing slash unless the result is the root. -/

/-- Replace every maximal run of slashes by one slash.  The boolean flag
records whether the previously emitted character was a slash, which is how
the regex replacement `/+` -> `/` behaves. -/
def collapseAux : Bool → Chars → Chars
  | _, [] => []
  | b, c :: cs =>
    if c = '/' then
      if b then collapseAux true cs else '/' :: collapseAux true cs
    else c :: collapseAux false cs

def collapseSlashes (s : Chars) : Chars := collapseAux false s

/-- Strip one trailing slash when the pattern is longer than the root,
mirroring the TrimSuffix call guarded by the length check. -/
def stripTrailing (s : Chars) : Chars :=
  if 1 < s.length ∧ s.getLast? = some '/' then s.dropLast else s

/-- Character-list version of `normalizedPattern` from group.go. -/
def normChars (s : Chars) : Chars :=
  if s = [] then ['/']
  else
    let s1 := if s.head? = some '/' then s else '/' :: s
    stripTrailing (collapseSlashes s1)

/-- `normalizedPattern` from src/pkg/hikari/group.go. -/
def normalizedPattern (s : String) : String := (normChars s.toList).asString

/-- The character class of the Go regex `^[a-zA-Z0-9/:*_-]*$`. -/
def allowedChar (c : Char) : Bool :=
  c.isAlpha || c.isDigit || c = '/' || c = ':' || c = '*' || c = '_' || c = '-'

/-- `strings.Split(s, "/")`: the accumulator holds the current segment in
reverse; every separator emits a segment, and empty segments are kept. -/
def splitSeg : Chars → Chars → List Chars
  | [], acc => [acc.reverse]
  | c :: cs, acc =>
    if c = '/' then acc.reverse :: splitSeg cs [] else splitSeg cs (c :: acc)

def goSplit (s : Chars) : List Chars := splitSeg s []

/-- Validity of one slash-separated segment of a pattern: a parameter
segment needs a nonempty name matching `[A-Za-z_][A-Za-z0-9_]*`, and a
segment containing the wildcard character must be exactly the wildcard. -/
def validSegment (part : Chars) : Bool :=
  (if part.head? = some ':' then
    match part.drop 1 with
    | [] => false
    | h :: rest => (h.isAlpha || h = '_') && rest.all fun c => c.isAlpha || c.isDigit || c = '_'
  else true)
  && (!(part.contains '*') || part = ['*'])

/-- `isValidPattern` from src/pkg/hikari/group.go: the whole pattern is
restricted to the allowed character set and every nonempty segment is
valid (empty segments are skipped by the loop). -/
def isValidPattern (p : String) : Bool :=
  p.toList.all allowedChar &&
  (goSplit p.toList).all fun part => part.isEmpty || validSegment part

/-- `buildPattern` from src/pkg/hikari/group.go: concatenate, normalize,
validate; on validation failure it logs (a side effect outside the model)
and returns the empty string. -/
def buildPattern (pre pattern : String) : String :=
  let fullPattern := normalizedPattern (pre ++ pattern)
  if isValidPattern fullPattern then fullPattern else ""

/-! ### Normal form of `normChars` and idempotence -/

/-- No two adjacent characters of the list are both slashes. -/
inductive NoDS : Chars → Prop
  | nil : NoDS []
  | single (a : Char) : NoDS [a]
  | cons (a b : Char) (rest : Chars) (hab : ¬(a = '/' ∧ b = '/'))
      (hb : NoDS (b :: rest)) : NoDS (a :: b :: rest)

theorem NoDS.tail {a : Char} {l : Chars} (h : NoDS (a :: l)) : NoDS l := by
  cases h with
  | single _ => exact NoDS.nil
  | cons _ _ _ _ hb => exact hb

theorem head_collapseAux_true (l : Chars) :
    (collapseAux true l).head? ≠ some '/' := by
  induction l with
  | nil => simp [collapseAux]
  | cons c cs ih =>
    by_cases h : c = '/'
    · simpa [collapseAux, h] using ih
    · simp [collapseAux, h]

theorem head_collapseAux_false {l : Chars} (h : l.head? = some '/') :
    (collapseAux false l).head? = some '/' := by
  cases l with
  | nil => simp at h
  | cons c cs =>
    simp at h
    simp [collapseAux, h]

theorem noDS_collapseAux (l : Chars) : ∀ b, NoDS (collapseAux b l) := by
  induction l with
  | nil => intro b; simpa [collapseAux] using NoDS.nil
  | cons c cs ih =>
    intro b
    by_cases h : c = '/'
    · subst h
      cases b with
      | true => simpa [collapseAux] using ih true
      | false =>
        simp only [collapseAux, if_pos rfl, if_neg Bool.false_ne_true]
        rcases hcs : collapseAux true cs with _ | ⟨d, rest⟩
        · exact NoDS.single '/'
        · refine NoDS.cons '/' d rest ?_ ?_
          · rintro ⟨-, hd⟩
            have := head_collapseAux_true cs
            rw [hcs] at this
            simp [hd] at this
          · rw [← hcs]; exact ih true
    · simp only [collapseAux, if_neg h]
      rcases hcs : collapseAux false cs with _ | ⟨d, rest⟩
      · exact NoDS.single c
      · refine NoDS.cons c d rest (fun hc => h hc.1) ?_
        rw [← hcs]; exact ih false

theorem collapseAux_eq_of_noDS {l : Chars} (h : NoDS l) :
    collapseAux false l = l := by
  induction h with
  | nil => rfl
  | single a =>
    by_cases ha : a = '/' <;> simp [collapseAux, ha]
  | cons a b rest hab hb ih =>
    by_cases ha : a = '/'
    · subst ha
      have hbne : b ≠ '/' := fun hb' => hab ⟨rfl, hb'⟩
      have hrest : collapseAux false rest = rest := by
        have hthis := ih
        rw [show collapseAux false (b :: rest) = b :: collapseAux false rest by
          simp [collapseAux, hbne]] at hthis
        simpa using hthis
      simp [collapseAux, hbne, hrest]
    · have : collapseAux false (a :: b :: rest) = a :: collapseAux false (b :: rest) := by
        simp [collapseAux, ha]
      rw [this, ih]

theorem noDS_dropLast {l : Chars} (h : NoDS l) : NoDS l.dropLast := by
  induction h with
  | nil => exact NoDS.nil
  | single a => simpa [List.dropLast] using NoDS.nil
  | cons a b rest hab hb ih =>
    cases rest with
    | nil => simpa [List.dropLast] using NoDS.single a
    | cons c rs =>
      have hd : (b :: c :: rs).dropLast = b :: (c :: rs).dropLast := by
        simp [List.dropLast]
      rw [show (a :: b :: c :: rs).dropLast = a :: (b :: c :: rs).dropLast by
        simp [List.dropLast]]
      rw [hd] at ih ⊢
      exact NoDS.cons a b _ hab ih

theorem no_trailing_double (xs : Chars) : ¬ NoDS (xs ++ ['/', '/']) := by
  induction xs with
  | nil =>
    intro h
    cases h with
    | cons a b rest hab hb => exact hab ⟨rfl, rfl⟩
  | cons x xs ih =>
    intro h
    rcases hx : xs ++ ['/', '/'] with _ | ⟨y, ys⟩
    · simp at hx
    · rw [List.cons_append, hx] at h
      exact ih (hx ▸ h.tail)

theorem eq_dropLast_append {l : Chars} {a : Char} (h : l.getLast? = some a) :
    l = l.dropLast ++ [a] := by
  induction l with
  | nil => simp at h
  | cons x xs ih =>
    cases xs with
    | nil => simp_all
    | cons y ys =>
      have h' : (y :: ys).getLast? = some a := by
        simpa [List.getLast?_cons_cons] using h
      have := ih h'
      calc x :: y :: ys = x :: ((y :: ys).dropLast ++ [a]) := by rw [← this]
        _ = (x :: y :: ys).dropLast ++ [a] := by simp [List.dropLast]

theorem head_dropLast {l : Chars} (h : 1 < l.length) :
    l.dropLast.head? = l.head? := by
  cases l with
  | nil => simp at h
  | cons a as =>
    cases as with
    | nil => simp at h
    | cons b bs => simp [List.dropLast]

/-- The normal form produced by `normChars`: starts with a slash, no double
slashes, and no trailing slash past the root. -/
def NormalForm (l : Chars) : Prop :=
  l.head? = some '/' ∧ NoDS l ∧ ¬(1 < l.length ∧ l.getLast? = some '/')

theorem normChars_normalForm (l : Chars) : NormalForm (normChars l) := by
  by_cases hl : l = []
  · rw [hl]
    exact ⟨rfl, NoDS.single '/', by simp [normChars]⟩
  · have hs1 : (if l.head? = some '/' then l else '/' :: l).head? = some '/' := by
      by_cases hh : l.head? = some '/' <;> simp [hh]
    have h1 : normChars l
        = stripTrailing (collapseSlashes (if l.head? = some '/' then l else '/' :: l)) := by
      unfold normChars
      rw [if_neg hl]
    rw [h1]
    set s1 := if l.head? = some '/' then l else '/' :: l with hs1def
    set m := collapseSlashes s1 with hmdef
    have hmhead : m.head? = some '/' := head_collapseAux_false hs1
    have hmnods : NoDS m := noDS_collapseAux s1 false
    unfold stripTrailing
    by_cases hcond : 1 < m.length ∧ m.getLast? = some '/'
    · simp only [if_pos hcond]
      refine ⟨?_, noDS_dropLast hmnods, ?_⟩
      · rw [head_dropLast hcond.1]; exact hmhead
      · rintro ⟨hlen, hlast⟩
        have h1 : m.dropLast = m.dropLast.dropLast ++ ['/'] := eq_dropLast_append hlast
        have h2 : m = m.dropLast ++ ['/'] := eq_dropLast_append hcond.2
        rw [h1] at h2
        rw [List.append_assoc] at h2
        exact no_trailing_double _ (h2 ▸ hmnods)
    · simp only [if_neg hcond]
      exact ⟨hmhead, hmnods, hcond⟩

theorem normChars_of_normalForm {l : Chars} (h : NormalForm l) :
    normChars l = l := by
  obtain ⟨hhead, hnods, htrail⟩ := h
  have hne : l ≠ [] := by
    intro he; rw [he] at hhead; simp at hhead
  have h1 : normChars l
      = stripTrailing (collapseSlashes (if l.head? = some '/' then l else '/' :: l)) := by
    unfold normChars
    rw [if_neg hne]
  rw [h1, if_pos hhead]
  unfold collapseSlashes
  rw [collapseAux_eq_of_noDS hnods]
  unfold stripTrailing
  rw [if_neg htrail]

theorem normChars_idem (l : Chars) : normChars (normChars l) = normChars l :=
  normChars_of_normalForm (normChars_normalForm l)

theorem toList_asString (l : Chars) : (List.asString l).toList = l := rfl

/-! ## Route table and matcher (src/pkg/hikari/router.go) -/

/-- Route parameters: the Go `map[string]string` is modelled as the list of
insertions in program order; reads take the latest insertion. -/
abbrev Params := List (String × String)

/-- Read of the params map: the last write to the key wins, a missing key
yields the empty string (Go zero value). -/
def getParam (ps : Params) (k : String) : String :=
  (ps.foldl (fun acc kv => if kv.1 = k then some kv.2 else acc) none).getD ""

/-- `Context.Wildcard()` from src/pkg/hikari/context.go. -/
def wildcardOf (ps : Params) : String := getParam ps "*"

/-- `strings.Trim(p, "/")`: drop leading and trailing slashes. -/
def trimSlashes (l : Chars) : Chars :=
  ((l.dropWhile fun c => c = '/').reverse.dropWhile fun c => c = '/').reverse

/-- `splitPath` from src/pkg/hikari/router.go: trim slashes, then an empty
string yields zero segments, otherwise split on slashes. -/
def splitPath (p : String) : List Chars :=
  let t := trimSlashes p.toList
  if t = [] then [] else goSplit t

/-- `strings.Join(parts, "/")`. -/
def joinSlash (parts : List Chars) : String :=
  String.intercalate "/" (parts.map List.asString)

/-- The segment-walking loop of `serveContext` (lines 93-100): a parameter
segment binds the request segment under the name after the colon marker, a
literal segment must equal the request segment byte for byte. -/
def bindParams : List Chars → List Chars → Option Params
  | [], _ => some []
  | p :: ps, r :: rs =>
    if p.head? = some ':' then
      (bindParams ps rs).map fun acc => ((p.drop 1).asString, r.asString) :: acc
    else if p = r then bindParams ps rs
    else none
  | _ :: _, [] => none

/-- The per-route matching logic of `serveContext` (lines 70-106) on the
already-split pattern and request segments: wildcard detection, the segment
count checks, the binding walk, and the wildcard remainder capture. -/
def matchSegs (pParts rParts : List Chars) : Option Params :=
  if pParts.getLast? = some ['*'] then
    if rParts.length < pParts.length - 1 then none
    else
      match bindParams pParts.dropLast (rParts.take pParts.dropLast.length) with
      | none => none
      | some ps =>
        if pParts.dropLast.length < rParts.length then
          some (ps ++ [("*", joinSlash (rParts.drop pParts.dropLast.length))])
        else some ps
  else
    if pParts.length = rParts.length then bindParams pParts rParts else none

/-- A route table entry (src/pkg/hikari/router.go).  The handler and the
middleware element types are parameters so that the same table model serves
both the matcher claims (opaque handler identifiers) and the execution
claims (trace-transforming functions). -/
structure Route (H M : Type) where
  method : String
  pattern : String
  handler : H
  middlewares : List M
deriving DecidableEq

variable {H M : Type}

/-- The match outcome of one route against the request path. -/
def matchParams (p : String) (rt : Route H M) : Option Params :=
  matchSegs (splitPath rt.pattern) (splitPath (normalizedPattern p))

/-- The loop of `serveContext` up to the decision which route handles the
request: routes are scanned in registration order, routes with a different
method are skipped, the first structural match wins with its params. -/
def findRoute : List (Route H M) → String → String → Option (Route H M × Params)
  | [], _, _ => none
  | rt :: rest, m, p =>
    if rt.method = m then
      match matchParams p rt with
      | some ps => some (rt, ps)
      | none => findRoute rest m p
    else findRoute rest m p

/-- `router.handle` from src/pkg/hikari/router.go: the pattern is built via
`buildPattern("", pattern)` and the route is appended to the table
unconditionally, even when `buildPattern` returned the empty string. -/
def routerHandle (routes : List (Route H M)) (method pattern : String)
    (handler : H) (mws : List M) : List (Route H M) :=
  routes ++ [⟨method, buildPattern "" pattern, handler, mws⟩]

/-- A route accepted for request (method, path): same method and a
structural pattern match. -/
def accepts (m p : String) (rt : Route H M) : Bool :=
  decide (rt.method = m) && (matchParams p rt).isSome

/-! ## Response writer (recovery.go, second section of the file)

The wrapped `http.ResponseWriter` is modelled as the list of events the
wrapper forwards to it. -/

inductive RWEvent
  | header (code : Int)
  | body (data : String)
deriving DecidableEq, Repr

structure RW where
  statusCode : Int
  written : Bool
  events : List RWEvent
deriving DecidableEq, Repr

/-- `newResponseWriter`: status defaults to 200, nothing written yet. -/
def newResponseWriter : RW := ⟨200, false, []⟩

/-- `responseWriter.WriteHeader`: only the first call records the status
and reaches the underlying writer. -/
def rwWriteHeader (rw : RW) (code : Int) : RW :=
  if rw.written then rw
  else ⟨code, true, rw.events ++ [.header code]⟩

/-- `responseWriter.Write`: an implicit `WriteHeader(200)` when no header
was written yet, then the body bytes go to the underlying writer. -/
def rwWrite (rw : RW) (data : String) : RW :=
  let rw2 := if rw.written then rw else rwWriteHeader rw 200
  ⟨rw2.statusCode, rw2.written, rw2.events ++ [.body data]⟩

/-- `responseWriter.StatusCode` (read through `Context.GetStatus`). -/
def statusCodeOf (rw : RW) : Int := rw.statusCode

/-- An externally driven call sequence against one response writer. -/
inductive RWOp
  | writeHeader (code : Int)
  | write (data : String)
deriving DecidableEq, Repr

def runOps (rw : RW) : List RWOp → RW
  | [] => rw
  | .writeHeader c :: rest => runOps (rwWriteHeader rw c) rest
  | .write d :: rest => runOps (rwWrite rw d) rest

/-- Modelled from the spec sentence behind claim C10 (not a source
function): the status the claim predicts, namely 200 when nothing was
written or when a body write came first, and otherwise the first
explicitly written status. -/
def firstStatusSpec : List RWOp → Int
  | [] => 200
  | .write _ :: _ => 200
  | .writeHeader c :: _ => c

/-- The severity switch of `App.loggerMiddleware`. -/
def logLevel (status : Int) : String :=
  if status ≥ 500 then "error" else if status ≥ 400 then "warn" else "info"

/-! ## Request execution pipeline (app.go, recovery.go, logger.go)

Handlers are total functions on a request context; their observable side
effects are recorded in the context's trace.  Panics cannot occur for total
functions, so the recovery wrapper's only modelled behaviour is delegation
(its pre-handler work, installing the deferred recover, has no observable
effect). -/

structure Ctx where
  method : String
  path : String
  params : Params
  writer : RW
  trace : List String

abbrev HandlerFunc := Ctx → Ctx
abbrev Middleware := HandlerFunc → HandlerFunc

def mkCtx (method path : String) : Ctx := ⟨method, path, [], newResponseWriter, []⟩

/-- A marker middleware: records its label, then delegates. -/
def mark (s : String) : Middleware :=
  fun next c => next { c with trace := c.trace ++ [s] }

/-- A marker handler recording that the route handler ran. -/
def markHandler : HandlerFunc :=
  fun c => { c with trace := c.trace ++ ["handler"] }

/-- The middleware application loops of `serveContext` and `buildHandler`:
iterating from the last middleware down to the first and wrapping leaves
the first-listed middleware outermost. -/
def applyMiddlewares (ms : List Middleware) (h : HandlerFunc) : HandlerFunc :=
  ms.foldr (fun m acc => m acc) h

/-- `App.recoveryMiddleware`: delegates; the recover path is unreachable
for total handler functions. -/
def recoveryMiddleware (next : HandlerFunc) : HandlerFunc := fun c => next c

/-- `App.loggerMiddleware`: logs a start event, delegates, then logs a
completion event whose severity is chosen from the recorded status. -/
def loggerMiddleware (next : HandlerFunc) : HandlerFunc := fun c =>
  let c1 := { c with trace := c.trace ++ ["log:request-started"] }
  let c2 := next c1
  { c2 with trace := c2.trace ++ ["log:request-completed:" ++ logLevel (statusCodeOf c2.writer)] }

/-- `router.serveContext`: dispatch to the first matching route with its
params and its middleware chain applied innermost-first, or answer with
`http.NotFound` (a 404 header plus body on the response writer). -/
def serveContext (routes : List (Route HandlerFunc Middleware)) : HandlerFunc := fun c =>
  match findRoute routes c.method c.path with
  | some (rt, ps) => applyMiddlewares rt.middlewares rt.handler { c with params := ps }
  | none => { c with writer := rwWrite (rwWriteHeader c.writer 404) "404 page not found" }

/-- `App.buildHandler`: the router handler, wrapped by the global
middlewares from last to first, then the logger, then recovery outermost. -/
def buildHandler (globals : List Middleware)
    (routes : List (Route HandlerFunc Middleware)) : HandlerFunc :=
  recoveryMiddleware (loggerMiddleware (applyMiddlewares globals (serveContext routes)))

/-! ## Group registration (src/pkg/hikari/group.go) with Go slice semantics

`Group.handle` builds the combined middleware slice with
`make([]Middleware, 0, k+j)` followed by two `copy` calls and a reslicing
expression.  Go's `copy` copies `min(len(dst), len(src))` elements and a
slice expression `s[low:]` requires `low <= len(s)`, otherwise the program
panics.  Those semantics are embedded below: a slice value is its backing
store from its offset (a list of optional cells of length `cap`) plus its
length, and a panic surfaces as `Except.error`. -/

structure GoSlice (α : Type) where
  store : List (Option α)
  len : Nat

variable {α : Type}

def goMake (α : Type) (len cap : Nat) : GoSlice α := ⟨List.replicate cap none, len⟩

/-- `copy(dst, src)`: overwrite the first `min(len(dst), len(src))` cells. -/
def goCopy (dst : GoSlice α) (src : List α) : GoSlice α :=
  let n := min dst.len src.length
  ⟨((src.take n).map some) ++ dst.store.drop n, dst.len⟩

/-- `s[low:]`: panics unless `low <= len(s)`. -/
def goSliceFrom (s : GoSlice α) (low : Nat) : Except String (GoSlice α) :=
  if low ≤ s.len then .ok ⟨s.store.drop low, s.len - low⟩
  else .error "slice bounds out of range"

/-- The elements a slice exposes: the first `len` cells of its store. -/
def goElems (s : GoSlice α) : List α := (s.store.take s.len).filterMap id

/-- The `allMiddlewares` computation of `Group.handle` (group.go lines
47-50).  In the non-panicking branch the reslice offset is 0 and the second
copy transfers zero elements, so the write-through aliasing of Go slices
cannot influence the value read out of `allMiddlewares`. -/
def groupAllMiddlewares (gms ms : List M) : Except String (List M) :=
  let allMws := goCopy (goMake M 0 (gms.length + ms.length)) gms
  match goSliceFrom allMws gms.length with
  | .error e => .error e
  | .ok tail =>
    let _ := goCopy tail ms
    .ok (goElems allMws)

/-- A `Group` value: accumulated path piece and inherited middlewares
(`App.Group` stores its arguments directly). -/
structure GroupModel (M : Type) where
  pfx : String
  middlewares : List M

/-- `Group.handle`: combine the middleware lists per the Go slice
semantics above (panic propagates), then register through `router.handle`
with the concatenated pattern. -/
def groupHandle (g : GroupModel M) (routes : List (Route H M))
    (method pattern : String) (handler : H) (mws : List M) :
    Except String (List (Route H M)) :=
  match groupAllMiddlewares g.middlewares mws with
  | .error e => .error e
  | .ok allMws => .ok (routerHandle routes method (g.pfx ++ pattern) handler allMws)

/-! ## Hub broadcast (src/pkg/hikari/websocket.go, `WebSocketHub.run`)

A connection's outbound queue is a bounded channel: its current contents
plus its capacity (256 in the source).  One broadcast iterates over the
connection map; the non-blocking send succeeds exactly when the buffer has
a free slot, and the default branch closes the queue and deletes the map
entry.  The result is the pair (remaining connection map, dropped
connections whose queues were closed). -/

structure WSConn where
  id : String
  sendQueue : List String
  sendCap : Nat
deriving DecidableEq, Repr

def broadcastStep : List WSConn → String → List WSConn × List WSConn
  | [], _ => ([], [])
  | c :: rest, msg =>
    let r := broadcastStep rest msg
    if c.sendQueue.length < c.sendCap then
      ({ c with sendQueue := c.sendQueue ++ [msg] } :: r.1, r.2)
    else
      (r.1, c :: r.2)

/-! ## Supporting lemmas -/

theorem findRoute_eq_find? (rts : List (Route H M)) (m p : String) :
    findRoute rts m p
      = (rts.find? (accepts m p)).map fun rt => (rt, (matchParams p rt).getD []) := by
  induction rts with
  | nil => simp [findRoute]
  | cons rt rest ih =>
    by_cases hm : rt.method = m
    · cases hmp : matchParams p rt with
      | some ps =>
        have hacc : accepts m p rt = true := by simp [accepts, hm, hmp]
        rw [List.find?_cons_of_pos _ hacc]
        simp [findRoute, hm, hmp]
      | none =>
        have hacc : ¬ accepts m p rt = true := by simp [accepts, hm, hmp]
        rw [List.find?_cons_of_neg _ hacc]
        simp [findRoute, hm, hmp, ih]
    · have hacc : ¬ accepts m p rt = true := by simp [accepts, hm]
      rw [List.find?_cons_of_neg _ hacc]
      simp [findRoute, hm, ih]

theorem getParam_append_last (ps : Params) (k v : String) :
    getParam (ps ++ [(k, v)]) k = v := by
  unfold getParam
  rw [List.foldl_append]
  simp

theorem matchSegs_wildcard_capture {pParts rParts : List Chars} {ps : Params}
    (hw : pParts.getLast? = some ['*'])
    (hlen : pParts.length - 1 < rParts.length)
    (hm : matchSegs pParts rParts = some ps) :
    wildcardOf ps = joinSlash (rParts.drop (pParts.length - 1)) := by
  have hdl : pParts.dropLast.length = pParts.length - 1 := List.length_dropLast _
  unfold matchSegs at hm
  rw [if_pos hw, if_neg (by omega)] at hm
  cases hbp : bindParams pParts.dropLast (rParts.take pParts.dropLast.length) with
  | none => rw [hbp] at hm; simp at hm
  | some ps0 =>
    have hlt : pParts.dropLast.length < rParts.length := by omega
    rw [hbp] at hm
    simp only [hlt, if_true] at hm
    have hm2 : ps0 ++ [("*", joinSlash (rParts.drop pParts.dropLast.length))] = ps :=
      Option.some.inj hm
    rw [← hm2, ← hdl]
    exact getParam_append_last ps0 "*" _

theorem runOps_status_of_written :
    ∀ (ops : List RWOp) (rw : RW), rw.written = true →
      statusCodeOf (runOps rw ops) = statusCodeOf rw := by
  intro ops
  induction ops with
  | nil => intro rw _; rfl
  | cons op rest ih =>
    intro rw h
    cases op with
    | writeHeader c =>
      have he : rwWriteHeader rw c = rw := by simp [rwWriteHeader, h]
      simpa [runOps, he] using ih rw h
    | write d =>
      have he : rwWrite rw d = { rw with events := rw.events ++ [.body d] } := by
        simp [rwWrite, h]
      have hw2 : (rwWrite rw d).written = true := by rw [he]; exact h
      have := ih (rwWrite rw d) hw2
      rw [show runOps rw (.write d :: rest) = runOps (rwWrite rw d) rest from rfl, this, he]
      rfl

/-! ## The claims -/

/-- Claim C1 (code bug): the spec says a route whose built pattern fails
validation is treated as unregistered and no request is ever dispatched to
its handler, but `router.handle` appends the route with the sentinel empty
pattern returned by `buildPattern`.  Registering the invalid pattern
"/users/:" stores a route with pattern "", and a GET request to the root
path "/" is then dispatched to that route's handler. -/
theorem invalid_pattern_route_registered_and_dispatched :
    routerHandle ([] : List (Route HandlerFunc Middleware)) "GET" "/users/:" markHandler []
        = [⟨"GET", "", markHandler, []⟩]
    ∧ (buildHandler []
          (routerHandle ([] : List (Route HandlerFunc Middleware)) "GET" "/users/:" markHandler [])
          (mkCtx "GET" "/")).trace
        = ["log:request-started", "handler", "log:request-completed:info"] :=
  ⟨rfl, rfl⟩

/-- Claim C2 (code bug): `Group.handle` builds `allMiddlewares` with
`make([]Middleware, 0, k+j)`, so both copies transfer zero elements and the
reslice `allMiddlewares[k:]` panics whenever the group holds any inherited
middleware (k >= 1); for k = 0 the route is registered with an empty chain,
silently dropping the route-specific middlewares.  The spec instead
promises the chain [m1..mk, n1..nj] and a panic-free registration. -/
theorem group_handle_middleware_chain_bug :
    groupAllMiddlewares (M := Nat) [10] [20] = Except.error "slice bounds out of range"
    ∧ groupAllMiddlewares (M := Nat) [] [20] = Except.ok []
    ∧ groupHandle (M := Nat) (H := Nat) ⟨"/api", [10]⟩ [] "GET" "/x" 7 [20]
        = Except.error "slice bounds out of range"
    ∧ groupHandle (M := Nat) (H := Nat) ⟨"/api", []⟩ [] "GET" "/x" 7 [20]
        = Except.ok [⟨"GET", "/api/x", 7, []⟩] :=
  ⟨rfl, rfl, rfl, rfl⟩

/-- Claim C3 (code bug): the composition order itself is the one the spec
states — recovery outermost, then logging, then globals in registration
order, then the route's stored chain, then the handler, giving the marker
trace A, B, C, D, handler when the stored chain is [C, D] — but the claim's
concrete scenario routes [C] through a Group, and that registration panics
in `Group.handle` (see C2) before any route exists, so no request can
produce the promised order. -/
theorem middleware_execution_order :
    groupHandle (M := Middleware) (H := HandlerFunc) ⟨"/g", [mark "C"]⟩ []
        "GET" "/x" markHandler [mark "D"]
      = Except.error "slice bounds out of range"
    ∧ (buildHandler [mark "A", mark "B"]
          (routerHandle [] "GET" "/g/x" markHandler [mark "C", mark "D"])
          (mkCtx "GET" "/g/x")).trace
      = ["log:request-started", "A", "B", "C", "D", "handler", "log:request-completed:info"]
    ∧ buildHandler [mark "A", mark "B"]
          (routerHandle [] "GET" "/g/x" markHandler [mark "C", mark "D"])
      = recoveryMiddleware (loggerMiddleware (mark "A" (mark "B"
          (serveContext (routerHandle [] "GET" "/g/x" markHandler [mark "C", mark "D"]))))) :=
  ⟨rfl, rfl, rfl⟩

/-- Claim C4: the matcher returns the first route in registration order
whose method equals the request method and whose pattern structurally
matches the normalized path, with that route's params; in particular with
GET /users/:id registered before GET /users/active, a GET request to
/users/active dispatches to the /users/:id route binding id = "active". -/
theorem first_match_wins :
    (∀ (H M : Type) (rts : List (Route H M)) (m p : String),
        findRoute rts m p
          = (rts.find? (accepts m p)).map fun rt => (rt, (matchParams p rt).getD []))
    ∧ findRoute
        (routerHandle (routerHandle ([] : List (Route Nat Nat)) "GET" "/users/:id" 1 [])
          "GET" "/users/active" 2 [])
        "GET" "/users/active"
      = some (⟨"GET", "/users/:id", 1, []⟩, [("id", "active")]) :=
  ⟨fun _ _ rts m p => findRoute_eq_find? rts m p, by decide⟩

/-- Claim C5: with GET /users/:id registered, GET /users/42 matches with
exactly params {id: "42"}, while GET /users/42/extra and GET /users match
nothing; the no-match case answers through `http.NotFound` with a 404. -/
theorem param_route_matching :
    findRoute (routerHandle ([] : List (Route Nat Nat)) "GET" "/users/:id" 1 [])
        "GET" "/users/42"
      = some (⟨"GET", "/users/:id", 1, []⟩, [("id", "42")])
    ∧ findRoute (routerHandle ([] : List (Route Nat Nat)) "GET" "/users/:id" 1 [])
        "GET" "/users/42/extra" = none
    ∧ findRoute (routerHandle ([] : List (Route Nat Nat)) "GET" "/users/:id" 1 [])
        "GET" "/users" = none
    ∧ (buildHandler [] (routerHandle [] "GET" "/users/:id" markHandler [])
          (mkCtx "GET" "/users")).writer
      = ⟨404, true, [.header 404, .body "404 page not found"]⟩ :=
  ⟨by decide, by decide, by decide, rfl⟩

/-- Claim C6: a route with pattern /files/* matches GET /files/a/b/c.txt,
binding the reserved key "*" to "a/b/c.txt"; in general, whenever a
wildcard pattern matches a request with more segments than the pattern's
non-wildcard head, the remaining request segments are bound slash-joined
under the wildcard key. -/
theorem wildcard_capture :
    findRoute (routerHandle ([] : List (Route Nat Nat)) "GET" "/files/*" 1 [])
        "GET" "/files/a/b/c.txt"
      = some (⟨"GET", "/files/*", 1, []⟩, [("*", "a/b/c.txt")])
    ∧ ∀ (pParts rParts : List Chars) (ps : Params),
        pParts.getLast? = some ['*'] →
        pParts.length - 1 < rParts.length →
        matchSegs pParts rParts = some ps →
        wildcardOf ps = joinSlash (rParts.drop (pParts.length - 1)) :=
  ⟨by decide, fun _ _ _ hw hlen hm => matchSegs_wildcard_capture hw hlen hm⟩

theorem wildcard_capture_witness :
    wildcardOf [("*", "a")] = joinSlash [['a']] :=
  wildcard_capture.2 [['*']] [['a']] [("*", "a")] (by decide) (by decide) (by decide)

/-- Claim C7: one broadcast of message P enqueues exactly one copy of P on
every connection of the map whose outbound queue has a free slot, and drops
every connection whose queue is full: the dropped ones (queue closed) are
exactly the full ones and they leave the map, so delivery to the remaining
connections is unaffected.  The non-blocking send of the source's select
with default branch is the capacity test. -/
theorem broadcast_fanout_and_drop (conns : List WSConn) (msg : String) :
    (broadcastStep conns msg).1
        = (conns.filter fun c => decide (c.sendQueue.length < c.sendCap)).map
            (fun c => { c with sendQueue := c.sendQueue ++ [msg] })
    ∧ (broadcastStep conns msg).2
        = conns.filter fun c => decide (c.sendCap ≤ c.sendQueue.length) := by
  induction conns with
  | nil => simp [broadcastStep]
  | cons c rest ih =>
    by_cases h : c.sendQueue.length < c.sendCap
    · have h2 : ¬ c.sendCap ≤ c.sendQueue.length := by omega
      simp [broadcastStep, h, h2, ih.1, ih.2]
    · have h2 : c.sendCap ≤ c.sendQueue.length := by omega
      simp [broadcastStep, h, h2, ih.1, ih.2]

/-- Claim C8: `normalizedPattern` is idempotent: normalizing an already
normalized pattern changes nothing. -/
theorem normalizedPattern_idempotent (s : String) :
    normalizedPattern (normalizedPattern s) = normalizedPattern s := by
  unfold normalizedPattern
  rw [toList_asString, normChars_idem]

/-- Claim C9: a GET route with pattern /files/* does match the bare path
/files (zero wildcard segments): the segment-count check only demands at
least the non-wildcard segments, and the remainder capture is skipped, so
the params map has no entry under "*" and `Wildcard()` reads "". -/
theorem wildcard_zero_segments :
    findRoute (routerHandle ([] : List (Route Nat Nat)) "GET" "/files/*" 1 [])
        "GET" "/files"
      = some (⟨"GET", "/files/*", 1, []⟩, [])
    ∧ wildcardOf [] = "" :=
  ⟨by decide, rfl⟩

/-- Claim C10: the response writer latches on the first WriteHeader: for
every call sequence the recorded status is 200 when nothing was written or
when a body write came first (its implicit WriteHeader(200)), otherwise the
first explicitly written status; later WriteHeader calls change neither the
recorded status nor the underlying response, and the access logger's
severity is chosen from exactly this latched value. -/
theorem response_status_latching :
    (∀ ops : List RWOp, statusCodeOf (runOps newResponseWriter ops) = firstStatusSpec ops)
    ∧ (∀ (rw : RW) (code : Int), rw.written = true → rwWriteHeader rw code = rw)
    ∧ (∀ ops : List RWOp,
        logLevel (statusCodeOf (runOps newResponseWriter ops)) = logLevel (firstStatusSpec ops)) := by
  have main : ∀ ops : List RWOp,
      statusCodeOf (runOps newResponseWriter ops) = firstStatusSpec ops := by
    intro ops
    cases ops with
    | nil => rfl
    | cons op rest =>
      cases op with
      | writeHeader c =>
        exact runOps_status_of_written rest (rwWriteHeader newResponseWriter c) rfl
      | write d =>
        exact runOps_status_of_written rest (rwWrite newResponseWriter d) rfl
  refine ⟨main, fun rw code h => by simp [rwWriteHeader, h], fun ops => congrArg logLevel (main ops)⟩

theorem response_status_latching_witness :
    rwWriteHeader ⟨418, true, []⟩ 500 = ⟨418, true, []⟩
    ∧ statusCodeOf (runOps newResponseWriter [RWOp.write "x", RWOp.writeHeader 500])
        = firstStatusSpec [RWOp.write "x", RWOp.writeHeader 500] :=
  ⟨response_status_latching.2.1 ⟨418, true, []⟩ 500 rfl,
   response_status_latching.1 [RWOp.write "x", RWOp.writeHeader 500]⟩

end Hikari
